import Mathlib

set_option autoImplicit false
set_option maxRecDepth 100000

/-!
Shallow embedding of learn2learn's `data/task_generator.py`.

The module has four components:
* `MetaDataset` wraps a labeled dataset (a finite list of `(data, label)`
  pairs) and builds `labels_to_indices`, a Python `defaultdict(list)`
  mapping each label to the positions carrying it, plus `labels`, the
  key list of that dictionary.
* `LabelEncoder` maps a duplicate-free class list to dense indices
  `0, 1, ...` and back (two Python dicts).
* `TaskGenerator.sample` draws `ways` classes (or takes an explicit
  override list), draws `shots` positions per class without replacement
  via `np.random.choice`, and materializes a `SampleDataset`.
* `SampleDataset` is the episode container (data, remapped labels,
  sampled classes).

Python dicts are modelled as insertion-ordered association lists.  The
`defaultdict` access `labels_to_indices[c]` is `dictGet`, which inserts
an empty entry when the key is missing — this mutation is threaded
through `sample`, which returns the post-state generator next to its
result.  `np.random.choice(pop, size, replace=False)` is modelled by
`npChoice` plus a `Draws` oracle supplying the drawn elements; numpy
raises (a `ValueError`, named `insufficientShots` after the spec's
taxonomy) exactly when `size` exceeds the population size.  Python
`assert` failures are the remaining `Err` constructors, named after the
spec's error taxonomy.
-/

/-- Error taxonomy of the module, named following the spec:
`duplicateLabel` is the `LabelEncoder` assert, `insufficientClasses` and
`invalidClass` are the `TaskGenerator` asserts, `insufficientShots` is
the `ValueError` raised by `np.random.choice(..., replace=False)`,
`keyNotFound` is a Python dict `KeyError`, `indexError` a list
`IndexError`. -/
inductive Err : Type where
  | duplicateLabel : Err
  | insufficientClasses : Err
  | invalidClass : Err
  | insufficientShots : Err
  | keyNotFound : Err
  | indexError : Err
  deriving DecidableEq

/-- First value stored under key `k`, if any (Python dict lookup; keys
are unique in every dict we build). -/
def dictFind {K V : Type} [DecidableEq K] (d : List (K × V)) (k : K) : Option V :=
  match d with
  | [] => none
  | (k1, v) :: rest => if k = k1 then some v else dictFind rest k

/-- Python dict subscript `d[k]`: raises `KeyError` when missing. -/
def pyDictGet {K V : Type} [DecidableEq K] (d : List (K × V)) (k : K) : Except Err V :=
  match dictFind d k with
  | some v => .ok v
  | none => .error .keyNotFound

/-- `defaultdict(list)` access followed by `.append(v)`:
`d[k].append(v)` appends `v` to the list stored under `k`, creating the
entry (at the end, preserving insertion order) when missing. -/
def dictAppend {K : Type} [DecidableEq K] (d : List (K × List Nat)) (k : K) (v : Nat) :
    List (K × List Nat) :=
  match d with
  | [] => [(k, [v])]
  | (k1, vs) :: rest =>
    if k = k1 then (k1, vs ++ [v]) :: rest else (k1, vs) :: dictAppend rest k v

/-- Python `dict.update({k: v})`: overwrite in place when the key
exists, append otherwise. -/
def dictUpd {K V : Type} [DecidableEq K] (d : List (K × V)) (k : K) (v : V) : List (K × V) :=
  match d with
  | [] => [(k, v)]
  | (k1, v1) :: rest =>
    if k1 = k then (k, v) :: rest else (k1, v1) :: dictUpd rest k v

/-- `defaultdict(list)` subscript `d[k]`: returns the stored list (or a
fresh empty one) together with the possibly-extended dictionary — the
default-insertion is a genuine mutation of the dict. -/
def dictGet {K : Type} [DecidableEq K] (d : List (K × List Nat)) (k : K) :
    List Nat × List (K × List Nat) :=
  match d with
  | [] => ([], [(k, [])])
  | (k1, vs) :: rest =>
    if k = k1 then (vs, (k1, vs) :: rest)
    else
      let r := dictGet rest k
      (r.1, (k1, vs) :: r.2)

/-- Pure read of a `defaultdict(list)` entry: the stored list, `[]`
when the key is missing. -/
def lookupD {K : Type} [DecidableEq K] (d : List (K × List Nat)) (k : K) : List Nat :=
  match dictFind d k with
  | some vs => vs
  | none => []

/-- `np.random.choice(pop, size, replace=False)`.  The randomness is
externalized: the caller supplies the drawn elements `pick` (see
`Draws`); numpy itself raises a `ValueError` exactly when `size`
exceeds the population size (this covers both its "a must be non-empty"
and "cannot take a larger sample than population" messages). -/
def npChoice {β : Type} (pop : List β) (size : Nat) (pick : List β) : Except Err (List β) :=
  if pop.length < size then .error .insufficientShots else .ok pick

/-- What numpy guarantees about a successful
`np.random.choice(pop, size, replace=False)` draw: `size` distinct
elements of `pop`. -/
def ValidPick {β : Type} [DecidableEq β] (pop : List β) (size : Nat) (pick : List β) : Prop :=
  pick.length = size ∧ pick.Nodup ∧ ∀ x ∈ pick, x ∈ pop

/-- Oracle standing for the process-wide random source: the class draw
made on the configured path and, for each class, the position draw. -/
structure Draws (L : Type) : Type where
  classPick : List L
  shotPick : L → List Nat

/-- `SampleDataset(data, labels, sampled_classes)`: the episode
container returned by `TaskGenerator.sample`. -/
structure SampleDataset (α L : Type) : Type where
  data : List α
  label : List Nat
  sampled_classes : List L

/-- `SampleDataset.__len__`: `len(self.data)`. -/
def SampleDataset.len {α L : Type} (s : SampleDataset α L) : Nat :=
  s.data.length

/-- Body of `MetaDataset.get_dict_of_labels_to_indices`:
`for i in range(len(dataset)): classes_to_indices[dataset[i][1]].append(i)`,
with `i` the running position counter. -/
def indexLoop {α L : Type} [DecidableEq L] :
    List (α × L) → Nat → List (L × List Nat) → List (L × List Nat)
  | [], _, acc => acc
  | x :: rest, i, acc => indexLoop rest (i + 1) (dictAppend acc x.2 i)

/-- `MetaDataset.get_dict_of_labels_to_indices`: scan the dataset once,
filing each position under its label in a fresh `defaultdict(list)`. -/
def get_dict_of_labels_to_indices {α L : Type} [DecidableEq L] (ds : List (α × L)) :
    List (L × List Nat) :=
  indexLoop ds 0 []

/-- `MetaDataset`: the wrapped dataset (a list of `(data, label)`
pairs, position = list index), the label-to-positions dictionary, and
the snapshot `labels = list(labels_to_indices.keys())`. -/
structure MetaDataset (α L : Type) : Type where
  dataset : List (α × L)
  labels_to_indices : List (L × List Nat)
  labels : List L

/-- `MetaDataset.__init__`. -/
def MetaDataset.make {α L : Type} [DecidableEq L] (ds : List (α × L)) : MetaDataset α L :=
  { dataset := ds
    labels_to_indices := get_dict_of_labels_to_indices ds
    labels := (get_dict_of_labels_to_indices ds).map Prod.fst }

/-- `LabelEncoder`: `class_to_idx` and `idx_to_class`, the two dicts
built by `for idx, old_class in enumerate(classes): ...update...`. -/
structure LabelEncoder (L : Type) : Type where
  class_to_idx : List (L × Nat)
  idx_to_class : List (Nat × L)

/-- The `enumerate` loop building `class_to_idx`
(`class_to_idx.update({old_class: idx})`), `i` the running index. -/
def ctiLoop {L : Type} [DecidableEq L] : List L → Nat → List (L × Nat) → List (L × Nat)
  | [], _, d => d
  | c :: rest, i, d => ctiLoop rest (i + 1) (dictUpd d c i)

/-- The `enumerate` loop building `idx_to_class`
(`idx_to_class.update({idx: old_class})`), `i` the running index. -/
def itcLoop {L : Type} [DecidableEq L] : List L → Nat → List (Nat × L) → List (Nat × L)
  | [], _, d => d
  | c :: rest, i, d => itcLoop rest (i + 1) (dictUpd d i c)

/-- `class_to_idx` after the whole `enumerate` loop. -/
def mkClassToIdx {L : Type} [DecidableEq L] (classes : List L) : List (L × Nat) :=
  ctiLoop classes 0 []

/-- `idx_to_class` after the whole `enumerate` loop. -/
def mkIdxToClass {L : Type} [DecidableEq L] (classes : List L) : List (Nat × L) :=
  itcLoop classes 0 []

/-- `LabelEncoder.__init__`: asserts
`len(set(classes)) == len(classes)` (Python set size is the number of
distinct elements, `classes.dedup.length` here), then builds both
dicts. -/
def LabelEncoder.make {L : Type} [DecidableEq L] (classes : List L) :
    Except Err (LabelEncoder L) :=
  if classes.dedup.length = classes.length then
    .ok { class_to_idx := mkClassToIdx classes, idx_to_class := mkIdxToClass classes }
  else .error .duplicateLabel

/-- The spec's `LabelRemapper.toIndex`: the dict subscript
`class_to_idx[label]`. -/
def LabelEncoder.toIndex {L : Type} [DecidableEq L] (e : LabelEncoder L) (c : L) :
    Except Err Nat :=
  pyDictGet e.class_to_idx c

/-- The spec's `LabelRemapper.toLabel`: the dict subscript
`idx_to_class[index]`. -/
def LabelEncoder.toLabel {L : Type} [DecidableEq L] (e : LabelEncoder L) (i : Nat) :
    Except Err L :=
  pyDictGet e.idx_to_class i

/-- `TaskGenerator`: the wrapped `MetaDataset`, the way-count, and the
configured class universe. -/
structure TaskGenerator (α L : Type) : Type where
  dataset : MetaDataset α L
  ways : Nat
  classes : List L

/-- `TaskGenerator._check_classes`:
`len(set(classes) - set(self.dataset.labels)) == 0`, i.e. every class
is a dataset label. -/
def checkClasses {L : Type} [DecidableEq L] (labels classes : List L) : Bool :=
  classes.all fun c => decide (c ∈ labels)

/-- `TaskGenerator.__init__`: default `classes` to the dataset's
labels, assert `len(self.classes) >= ways`, then `_check_classes`. -/
def TaskGenerator.make {α L : Type} [DecidableEq L] (dataset : MetaDataset α L)
    (classes : Option (List L)) (ways : Nat) : Except Err (TaskGenerator α L) :=
  let cls := match classes with
    | none => dataset.labels
    | some cs => cs
  if ways ≤ cls.length then
    if checkClasses dataset.labels cls then
      .ok { dataset := dataset, ways := ways, classes := cls }
    else .error .invalidClass
  else .error .insufficientClasses

/-- Replace the generator's `labels_to_indices` (the one field
`sample` can mutate through `defaultdict` access). -/
def setLti {α L : Type} (g : TaskGenerator α L) (l : List (L × List Nat)) :
    TaskGenerator α L :=
  { g with dataset := { g.dataset with labels_to_indices := l } }

/-- `[self.dataset[idx][0] for idx in data_indices]`: fetch the data
component at each position, left to right; a position outside the
dataset raises `IndexError`. -/
def getData {α L : Type} : List (α × L) → List Nat → Except Err (List α)
  | _, [] => .ok []
  | ds, i :: rest =>
    match ds.get? i with
    | none => .error .indexError
    | some x =>
      match getData ds rest with
      | .error e => .error e
      | .ok xs => .ok (x.1 :: xs)

/-- The per-class loop of `TaskGenerator.sample`: for each class,
`defaultdict` access to its position list (threading the possibly
mutated dictionary), `np.random.choice(indices, shots, replace=False)`,
then `np.full(shots, class_to_idx[_class])` appended to the flat label
list.  Returns the accumulated `(data_indices, data_labels)` or the
first error, together with the dictionary state reached. -/
def sampleLoop {L : Type} [DecidableEq L] (r : Draws L) (cti : List (L × Nat)) (shots : Nat) :
    List L → List (L × List Nat) → Except Err (List Nat × List Nat) × List (L × List Nat)
  | [], lti => (.ok ([], []), lti)
  | c :: rest, lti =>
    let pr := dictGet lti c
    match npChoice pr.1 shots (r.shotPick c) with
    | .error e => (.error e, pr.2)
    | .ok picked =>
      match pyDictGet cti c with
      | .error e => (.error e, pr.2)
      | .ok v =>
        match sampleLoop r cti shots rest pr.2 with
        | (.error e, lti2) => (.error e, lti2)
        | (.ok (di, dl), lti2) =>
          (.ok (picked ++ di, List.replicate shots v ++ dl), lti2)

/-- `TaskGenerator.sample(classes, shots)`.  With no override it
re-runs `_check_classes` on the configured classes and draws `ways`
of them (`npChoice` with the oracle's `classPick`); an override list is
used verbatim.  It then builds a `LabelEncoder`, runs the per-class
loop, and materializes the episode.  The second component is the
post-state generator: identical to `g` except for whatever
`defaultdict` insertions the loop performed on `labels_to_indices`. -/
def TaskGenerator.sample {α L : Type} [DecidableEq L] (g : TaskGenerator α L) (r : Draws L)
    (classes : Option (List L)) (shots : Nat) :
    Except Err (SampleDataset α L) × TaskGenerator α L :=
  match (match classes with
    | none =>
      if checkClasses g.dataset.labels g.classes then
        npChoice g.classes g.ways r.classPick
      else .error .invalidClass
    | some cs => (.ok cs : Except Err (List L))) with
  | .error e => (.error e, g)
  | .ok classes_to_sample =>
    match LabelEncoder.make classes_to_sample with
    | .error e => (.error e, g)
    | .ok label_encoder =>
      match sampleLoop r label_encoder.class_to_idx shots classes_to_sample
          g.dataset.labels_to_indices with
      | (.error e, lti2) => (.error e, setLti g lti2)
      | (.ok (di, dl), lti2) =>
        match getData g.dataset.dataset di with
        | .error e => (.error e, setLti g lti2)
        | .ok data =>
          (.ok { data := data, label := dl, sampled_classes := classes_to_sample },
            setLti g lti2)

/-! ### Dictionary lemmas -/

theorem dictGet_fst {K : Type} [DecidableEq K] (d : List (K × List Nat)) (k : K) :
    (dictGet d k).1 = lookupD d k := by
  induction d with
  | nil => simp [dictGet, lookupD, dictFind]
  | cons p rest ih =>
    obtain ⟨k1, vs⟩ := p
    by_cases h : k = k1 <;> simp [dictGet, lookupD, dictFind, h]
    simpa [lookupD] using ih

theorem lookupD_dictGet {K : Type} [DecidableEq K] (d : List (K × List Nat)) (k k1 : K) :
    lookupD (dictGet d k).2 k1 = lookupD d k1 := by
  induction d with
  | nil =>
    by_cases h : k1 = k <;> simp [dictGet, lookupD, dictFind, h]
  | cons p rest ih =>
    obtain ⟨k2, vs⟩ := p
    by_cases h : k = k2
    · simp [dictGet, h]
    · by_cases h1 : k1 = k2 <;> simp [dictGet, lookupD, dictFind, h, h1]
      simpa [lookupD] using ih

theorem dictGet_of_isSome {K : Type} [DecidableEq K] {d : List (K × List Nat)} {k : K}
    (h : (dictFind d k).isSome) : (dictGet d k).2 = d := by
  induction d with
  | nil => simp [dictFind] at h
  | cons p rest ih =>
    obtain ⟨k1, vs⟩ := p
    by_cases hk : k = k1
    · simp [dictGet, hk]
    · simp [dictFind, hk] at h
      simp [dictGet, hk, ih h]

theorem dictFind_dictUpd_self {K V : Type} [DecidableEq K] (d : List (K × V)) (k : K) (v : V) :
    dictFind (dictUpd d k v) k = some v := by
  induction d with
  | nil => simp [dictUpd, dictFind]
  | cons p rest ih =>
    obtain ⟨k1, v1⟩ := p
    by_cases h : k1 = k
    · simp [dictUpd, dictFind, h]
    · have hne : k ≠ k1 := fun hh => h hh.symm
      simp [dictUpd, dictFind, h, hne, ih]

theorem dictFind_dictUpd_ne {K V : Type} [DecidableEq K] {d : List (K × V)} {k k1 : K} (v : V)
    (h : k ≠ k1) : dictFind (dictUpd d k1 v) k = dictFind d k := by
  induction d with
  | nil => simp [dictUpd, dictFind, h]
  | cons p rest ih =>
    obtain ⟨k2, v2⟩ := p
    by_cases h2 : k2 = k1
    · subst h2
      simp [dictUpd, dictFind, h]
    · by_cases h3 : k = k2 <;> simp [dictUpd, dictFind, h2, h3, ih]

theorem dictFind_some_mem {K V : Type} [DecidableEq K] {d : List (K × V)} {k : K} {v : V}
    (h : dictFind d k = some v) : (k, v) ∈ d := by
  induction d with
  | nil => simp [dictFind] at h
  | cons p rest ih =>
    obtain ⟨k1, v1⟩ := p
    by_cases hk : k = k1
    · simp [dictFind, hk] at h
      simp [hk, h]
    · simp [dictFind, hk] at h
      exact List.mem_cons_of_mem _ (ih h)

theorem dictFind_dictUpd_isSome {K V : Type} [DecidableEq K] {d : List (K × V)} {c : K}
    (k : K) (v : V) (h : (dictFind d c).isSome) : (dictFind (dictUpd d k v) c).isSome := by
  by_cases hc : c = k
  · subst hc
    simp [dictFind_dictUpd_self]
  · rwa [dictFind_dictUpd_ne v hc]

/-! ### LabelEncoder lemmas -/

theorem dictFind_ctiLoop_not_mem {L : Type} [DecidableEq L] {cs : List L} {c : L}
    (h : c ∉ cs) : ∀ (j : Nat) (d : List (L × Nat)), dictFind (ctiLoop cs j d) c = dictFind d c := by
  induction cs with
  | nil => intro j d; simp [ctiLoop]
  | cons c0 rest ih =>
    intro j d
    have hne : c ≠ c0 := fun hh => h (hh ▸ List.mem_cons_self c0 rest)
    have hrest : c ∉ rest := fun hh => h (List.mem_cons_of_mem _ hh)
    rw [ctiLoop, ih hrest, dictFind_dictUpd_ne _ hne]

theorem dictFind_ctiLoop {L : Type} [DecidableEq L] {cs : List L} {i : Nat} {c : L}
    (hnd : cs.Nodup) (hget : cs.get? i = some c) :
    ∀ (j : Nat) (d : List (L × Nat)), dictFind d c = none →
      dictFind (ctiLoop cs j d) c = some (j + i) := by
  induction cs generalizing i with
  | nil => simp at hget
  | cons c0 rest ih =>
    intro j d hd
    obtain ⟨hc0, hndr⟩ := List.nodup_cons.mp hnd
    match i, hget with
    | 0, hget =>
      have hc : c0 = c := by simpa using hget
      subst hc
      rw [ctiLoop, dictFind_ctiLoop_not_mem hc0, dictFind_dictUpd_self]
      simp
    | i + 1, hget =>
      have hget2 : rest.get? i = some c := by simpa using hget
      have hcrest : c ∈ rest := by
        rcases List.get?_eq_some.mp hget2 with ⟨hlt, hc⟩
        exact hc ▸ List.get_mem rest i hlt
      have hne : c ≠ c0 := fun hh => hc0 (hh ▸ hcrest)
      have : dictFind (dictUpd d c0 j) c = none := by rwa [dictFind_dictUpd_ne _ hne]
      rw [ctiLoop, ih hndr hget2 (j + 1) _ this]
      congr 1
      omega

theorem dictFind_mkClassToIdx {L : Type} [DecidableEq L] {cs : List L} {i : Nat} {c : L}
    (hnd : cs.Nodup) (hget : cs.get? i = some c) :
    dictFind (mkClassToIdx cs) c = some i := by
  simpa using dictFind_ctiLoop hnd hget 0 [] rfl

theorem dictFind_itcLoop_lt {L : Type} [DecidableEq L] {m j : Nat} (h : m < j) :
    ∀ (cs : List L) (d : List (Nat × L)), dictFind (itcLoop cs j d) m = dictFind d m := by
  intro cs
  induction cs generalizing j with
  | nil => intro d; simp [itcLoop]
  | cons c0 rest ih =>
    intro d
    have hne : m ≠ j := Nat.ne_of_lt h
    rw [itcLoop, ih (Nat.lt_succ_of_lt h), dictFind_dictUpd_ne _ hne]

theorem dictFind_itcLoop {L : Type} [DecidableEq L] {cs : List L} {i : Nat} {c : L}
    (hget : cs.get? i = some c) :
    ∀ (j : Nat) (d : List (Nat × L)), (∀ m, j ≤ m → dictFind d m = none) →
      dictFind (itcLoop cs j d) (j + i) = some c := by
  induction cs generalizing i with
  | nil => simp at hget
  | cons c0 rest ih =>
    intro j d hd
    match i, hget with
    | 0, hget =>
      have hc : c0 = c := by simpa using hget
      subst hc
      have hlt : dictFind (itcLoop rest (j + 1) (dictUpd d j c0)) j =
          dictFind (dictUpd d j c0) j :=
        dictFind_itcLoop_lt (by omega) rest _
      rw [itcLoop]
      show dictFind (itcLoop rest (j + 1) (dictUpd d j c0)) j = some c0
      rw [hlt, dictFind_dictUpd_self]
    | i + 1, hget =>
      have hget2 : rest.get? i = some c := by simpa using hget
      have hd2 : ∀ m, j + 1 ≤ m → dictFind (dictUpd d j c0) m = none := by
        intro m hm
        have hne : m ≠ j := by omega
        rw [dictFind_dictUpd_ne _ hne]
        exact hd m (by omega)
      have := ih hget2 (j + 1) (dictUpd d j c0) hd2
      rw [itcLoop]
      convert this using 2
      omega

theorem dictFind_mkIdxToClass {L : Type} [DecidableEq L] {cs : List L} {i : Nat} {c : L}
    (hget : cs.get? i = some c) : dictFind (mkIdxToClass cs) i = some c := by
  have := dictFind_itcLoop hget 0 [] (fun m _ => rfl)
  simpa using this

theorem dictFind_ctiLoop_isSome {L : Type} [DecidableEq L] {cs : List L} {c : L} :
    ∀ (j : Nat) (d : List (L × Nat)), c ∈ cs ∨ (dictFind d c).isSome →
      (dictFind (ctiLoop cs j d) c).isSome := by
  induction cs with
  | nil =>
    intro j d h
    rcases h with h | h
    · simp at h
    · simpa [ctiLoop] using h
  | cons c0 rest ih =>
    intro j d h
    rw [ctiLoop]
    refine ih (j + 1) _ ?_
    rcases h with h | h
    · rcases List.mem_cons.mp h with h | h
      · subst h
        exact Or.inr (by simp [dictFind_dictUpd_self])
      · exact Or.inl h
    · exact Or.inr (dictFind_dictUpd_isSome _ _ h)

theorem dictFind_mkClassToIdx_isSome {L : Type} [DecidableEq L] {cs : List L} {c : L}
    (h : c ∈ cs) : (dictFind (mkClassToIdx cs) c).isSome :=
  dictFind_ctiLoop_isSome 0 [] (Or.inl h)

theorem dedup_length_eq_iff {L : Type} [DecidableEq L] (cs : List L) :
    cs.dedup.length = cs.length ↔ cs.Nodup := by
  constructor
  · intro h
    rw [← List.dedup_eq_self]
    exact (List.dedup_sublist cs).eq_of_length h
  · intro h
    rw [List.dedup_eq_self.mpr h]

theorem LabelEncoder.make_ok {L : Type} [DecidableEq L] {cs : List L} {e : LabelEncoder L}
    (h : LabelEncoder.make cs = .ok e) :
    cs.Nodup ∧ e = { class_to_idx := mkClassToIdx cs, idx_to_class := mkIdxToClass cs } := by
  rw [LabelEncoder.make] at h
  split at h
  · rename_i hc
    exact ⟨(dedup_length_eq_iff cs).mp hc, by injection h with h2; exact h2.symm⟩
  · exact absurd h (by simp)

theorem LabelEncoder.make_of_nodup {L : Type} [DecidableEq L] {cs : List L} (h : cs.Nodup) :
    LabelEncoder.make cs =
      .ok { class_to_idx := mkClassToIdx cs, idx_to_class := mkIdxToClass cs } := by
  rw [LabelEncoder.make, if_pos ((dedup_length_eq_iff cs).mpr h)]

theorem LabelEncoder.make_err {L : Type} [DecidableEq L] {cs : List L} (h : ¬cs.Nodup) :
    LabelEncoder.make cs = .error .duplicateLabel := by
  rw [LabelEncoder.make, if_neg (fun hc => h ((dedup_length_eq_iff cs).mp hc))]

/-! ### Partition lemmas for the label index -/

theorem flatMap_snd_dictAppend {K : Type} [DecidableEq K] (d : List (K × List Nat)) (k : K)
    (v : Nat) : ((dictAppend d k v).flatMap Prod.snd).Perm (d.flatMap Prod.snd ++ [v]) := by
  induction d with
  | nil => simp [dictAppend]
  | cons p rest ih =>
    obtain ⟨k1, vs⟩ := p
    by_cases h : k = k1
    · simp only [dictAppend, if_pos h, List.flatMap_cons, List.append_assoc]
      exact List.Perm.append_left vs (@List.perm_append_comm _ [v] (rest.flatMap Prod.snd))
    · simp only [dictAppend, if_neg h, List.flatMap_cons, List.append_assoc]
      exact List.Perm.append_left vs ih

theorem indexLoop_perm {α L : Type} [DecidableEq L] (ds : List (α × L)) :
    ∀ (i : Nat) (acc : List (L × List Nat)),
      ((indexLoop ds i acc).flatMap Prod.snd).Perm
        (acc.flatMap Prod.snd ++ List.range' i ds.length) := by
  induction ds with
  | nil => intro i acc; simp [indexLoop]
  | cons x rest ih =>
    intro i acc
    rw [indexLoop]
    refine ((ih (i + 1) (dictAppend acc x.2 i)).trans ?_)
    have h1 := (flatMap_snd_dictAppend acc x.2 i).append_right (List.range' (i + 1) rest.length)
    refine h1.trans ?_
    rw [List.length_cons, List.range'_succ]
    simp

theorem get_dict_perm {α L : Type} [DecidableEq L] (ds : List (α × L)) :
    ((get_dict_of_labels_to_indices ds).flatMap Prod.snd).Perm (List.range ds.length) := by
  have := indexLoop_perm ds 0 []
  simpa [get_dict_of_labels_to_indices, List.range_eq_range'] using this

theorem dictAppend_pred {K : Type} [DecidableEq K] {P : Nat → K → Prop}
    {d : List (K × List Nat)} {k : K} {v : Nat} (hd : ∀ p ∈ d, ∀ j ∈ p.2, P j p.1)
    (hv : P v k) : ∀ p ∈ dictAppend d k v, ∀ j ∈ p.2, P j p.1 := by
  induction d with
  | nil =>
    intro p hp j hj
    simp only [dictAppend, List.mem_singleton] at hp
    subst hp
    have hjv : j = v := by simpa using hj
    subst hjv
    exact hv
  | cons q rest ih =>
    obtain ⟨k1, vs⟩ := q
    by_cases h : k = k1
    · intro p hp j hj
      simp only [dictAppend, if_pos h] at hp
      rcases List.mem_cons.mp hp with hp | hp
      · subst hp
        rcases List.mem_append.mp hj with hj | hj
        · exact hd (k1, vs) (List.mem_cons_self _ _) j hj
        · have hjv : j = v := by simpa using hj
          subst hjv
          exact h ▸ hv
      · exact hd p (List.mem_cons_of_mem _ hp) j hj
    · intro p hp j hj
      simp only [dictAppend, if_neg h] at hp
      rcases List.mem_cons.mp hp with hp | hp
      · subst hp
        exact hd (k1, vs) (List.mem_cons_self _ _) j hj
      · exact ih (fun q hq => hd q (List.mem_cons_of_mem _ hq)) p hp j hj

theorem indexLoop_pred {α L : Type} [DecidableEq L] {P : Nat → L → Prop} :
    ∀ (ds : List (α × L)) (i : Nat) (acc : List (L × List Nat)),
      (∀ p ∈ acc, ∀ j ∈ p.2, P j p.1) →
      (∀ (m : Nat) (x : α × L), ds.get? m = some x → P (i + m) x.2) →
      ∀ p ∈ indexLoop ds i acc, ∀ j ∈ p.2, P j p.1 := by
  intro ds
  induction ds with
  | nil =>
    intro i acc hacc _
    simpa [indexLoop] using hacc
  | cons x rest ih =>
    intro i acc hacc hds
    rw [indexLoop]
    refine ih (i + 1) _ (dictAppend_pred hacc (hds 0 x rfl)) ?_
    intro m y hy
    have hp := hds (m + 1) y (by simpa using hy)
    have heq : i + (m + 1) = (i + 1) + m := by omega
    rwa [heq] at hp

theorem mem_lookupD_flatMap {K : Type} [DecidableEq K] {d : List (K × List Nat)} {c : K}
    {i : Nat} (h : i ∈ lookupD d c) : i ∈ d.flatMap Prod.snd := by
  rw [lookupD] at h
  split at h
  · rename_i vs heq
    exact List.mem_flatMap.mpr ⟨(c, vs), dictFind_some_mem heq, h⟩
  · simp at h

theorem lookupD_get_dict_lt {α L : Type} [DecidableEq L] {ds : List (α × L)} {c : L} {i : Nat}
    (h : i ∈ lookupD (get_dict_of_labels_to_indices ds) c) : i < ds.length := by
  have h1 := mem_lookupD_flatMap h
  have h2 := (get_dict_perm ds).mem_iff.mp h1
  exact List.mem_range.mp h2


/-! ### Data materialization lemmas -/

theorem getData_ok_length {α L : Type} {ds : List (α × L)} :
    ∀ {di : List Nat} {out : List α}, getData ds di = .ok out → out.length = di.length := by
  intro di
  induction di with
  | nil =>
    intro out h
    rw [getData] at h
    injection h with h
    subst h
    rfl
  | cons i rest ih =>
    intro out h
    rw [getData] at h
    split at h
    · exact absurd h (by simp)
    · split at h
      · exact absurd h (by simp)
      · rename_i xs hxs
        injection h with h
        subst h
        simp [ih hxs]

theorem getData_ok_forall2 {α L : Type} {ds : List (α × L)} :
    ∀ {di : List Nat} {out : List α}, getData ds di = .ok out →
      List.Forall₂ (fun i a => ∃ l, ds.get? i = some (a, l)) di out := by
  intro di
  induction di with
  | nil =>
    intro out h
    rw [getData] at h
    injection h with h
    subst h
    exact List.Forall₂.nil
  | cons i rest ih =>
    intro out h
    rw [getData] at h
    split at h
    · exact absurd h (by simp)
    · rename_i x hx
      split at h
      · exact absurd h (by simp)
      · rename_i xs hxs
        injection h with h
        subst h
        exact List.Forall₂.cons ⟨x.2, by simpa using hx⟩ (ih hxs)

theorem getData_ok_of_lt {α L : Type} {ds : List (α × L)} :
    ∀ {di : List Nat}, (∀ i ∈ di, i < ds.length) → ∃ out, getData ds di = .ok out := by
  intro di
  induction di with
  | nil => exact fun _ => ⟨[], rfl⟩
  | cons i rest ih =>
    intro h
    have hi : i < ds.length := h i (List.mem_cons_self _ _)
    obtain ⟨out, hout⟩ := ih fun j hj => h j (List.mem_cons_of_mem _ hj)
    refine ⟨(ds.get ⟨i, hi⟩).1 :: out, ?_⟩
    rw [getData, List.get?_eq_get hi, hout]

/-! ### flatMap helpers -/

theorem flatMap_length_const {β : Type} {k : Nat} :
    ∀ {cs : List β} {f : β → List Nat}, (∀ c ∈ cs, (f c).length = k) →
      (cs.flatMap f).length = cs.length * k := by
  intro cs
  induction cs with
  | nil => intro f _; simp
  | cons c rest ih =>
    intro f h
    rw [List.flatMap_cons, List.length_append, h c (List.mem_cons_self _ _),
      ih fun x hx => h x (List.mem_cons_of_mem _ hx)]
    simp [Nat.succ_mul]
    omega

theorem flatMap_replicate_range {L : Type} (shots : Nat) :
    ∀ (cs : List L) (g : L → Nat) (j : Nat),
      (∀ (i : Nat) (h : i < cs.length), g (cs.get ⟨i, h⟩) = j + i) →
      cs.flatMap (fun c => List.replicate shots (g c)) =
        (List.range' j cs.length).flatMap (fun i => List.replicate shots i) := by
  intro cs
  induction cs with
  | nil => intro g j _; simp
  | cons c rest ih =>
    intro g j h
    rw [List.length_cons, List.range'_succ, List.flatMap_cons, List.flatMap_cons]
    have h0 : g c = j := by simpa using h 0 (by simp)
    rw [h0, ih g (j + 1) ?_]
    intro i hi
    have := h (i + 1) (by simpa using Nat.succ_lt_succ hi)
    simpa [Nat.add_assoc, Nat.add_comm 1 i] using this

theorem flatMap_replicate_mkClassToIdx {L : Type} [DecidableEq L] (shots : Nat)
    {cs : List L} (hnd : cs.Nodup) :
    cs.flatMap (fun c => List.replicate shots ((dictFind (mkClassToIdx cs) c).getD 0)) =
      (List.range cs.length).flatMap (fun i => List.replicate shots i) := by
  rw [List.range_eq_range']
  refine flatMap_replicate_range shots cs _ 0 ?_
  intro i hi
  rw [dictFind_mkClassToIdx hnd (List.get?_eq_get hi)]
  simp

theorem nodup_subset_length_le {β : Type} {l1 l2 : List β} (h1 : l1.Nodup) (h2 : ∀ x ∈ l1, x ∈ l2) :
    l1.length ≤ l2.length :=
  (h1.subperm fun {x} hx => h2 x hx).length_le

/-! ### sampleLoop lemmas -/

theorem sampleLoop_snd {L : Type} [DecidableEq L] (r : Draws L) (cti : List (L × Nat))
    (shots : Nat) :
    ∀ (cs : List L) (lti : List (L × List Nat)), (∀ c ∈ cs, (dictFind lti c).isSome) →
      (sampleLoop r cti shots cs lti).2 = lti := by
  intro cs
  induction cs with
  | nil => intro lti _; rfl
  | cons c rest ih =>
    intro lti h
    have hc : (dictGet lti c).2 = lti :=
      dictGet_of_isSome (h c (List.mem_cons_self _ _))
    have hrest : ∀ x ∈ rest, (dictFind lti x).isSome :=
      fun x hx => h x (List.mem_cons_of_mem _ hx)
    rw [sampleLoop]
    simp only [hc]
    split
    · rfl
    · split
      · rfl
      · have hres := ih lti hrest
        rcases heq : sampleLoop r cti shots rest lti with ⟨res, lti3⟩
        rw [heq] at hres
        cases res with
        | error e => simpa using hres
        | ok p =>
          obtain ⟨di, dl⟩ := p
          simpa using hres

theorem sampleLoop_ok {L : Type} [DecidableEq L] (r : Draws L) (cti : List (L × Nat))
    (shots : Nat) :
    ∀ (cs : List L) (lti : List (L × List Nat)),
      (∀ c ∈ cs, shots ≤ (lookupD lti c).length) →
      (∀ c ∈ cs, (dictFind cti c).isSome) →
      ∃ lti2, sampleLoop r cti shots cs lti =
        (.ok (cs.flatMap (fun c => r.shotPick c),
          cs.flatMap (fun c => List.replicate shots ((dictFind cti c).getD 0))), lti2) := by
  intro cs
  induction cs with
  | nil => intro lti _ _; exact ⟨lti, rfl⟩
  | cons c rest ih =>
    intro lti hlen henc
    have h1 : ¬((dictGet lti c).1.length < shots) := by
      rw [dictGet_fst]
      exact Nat.not_lt.mpr (hlen c (List.mem_cons_self _ _))
    have h2 : (dictFind cti c).isSome := henc c (List.mem_cons_self _ _)
    obtain ⟨v, hv⟩ := Option.isSome_iff_exists.mp h2
    have hrestlen : ∀ x ∈ rest, shots ≤ (lookupD (dictGet lti c).2 x).length := by
      intro x hx
      rw [lookupD_dictGet]
      exact hlen x (List.mem_cons_of_mem _ hx)
    obtain ⟨lti2, hrec⟩ := ih (dictGet lti c).2 hrestlen
      (fun x hx => henc x (List.mem_cons_of_mem _ hx))
    refine ⟨lti2, ?_⟩
    rw [sampleLoop]
    simp only [npChoice, if_neg h1, pyDictGet, hv, hrec, List.flatMap_cons]
    rfl

theorem sampleLoop_ok_inv {L : Type} [DecidableEq L] {r : Draws L} {cti : List (L × Nat)}
    {shots : Nat} :
    ∀ {cs : List L} {lti lti2 : List (L × List Nat)} {di dl : List Nat},
      sampleLoop r cti shots cs lti = (.ok (di, dl), lti2) →
      di = cs.flatMap (fun c => r.shotPick c) ∧
        dl = cs.flatMap (fun c => List.replicate shots ((dictFind cti c).getD 0)) ∧
        (∀ c ∈ cs, (dictFind cti c).isSome) ∧
        (∀ c ∈ cs, shots ≤ (lookupD lti c).length) := by
  intro cs
  induction cs with
  | nil =>
    intro lti lti2 di dl h
    rw [sampleLoop] at h
    injection h with h1 _
    injection h1 with h1
    injection h1 with hdi hdl
    exact ⟨hdi.symm, hdl.symm, by simp, by simp⟩
  | cons c rest ih =>
    intro lti lti2 di dl h
    rw [sampleLoop] at h
    split at h
    · exact absurd h (by simp)
    · rename_i picked hpick
      split at h
      · exact absurd h (by simp)
      · rename_i v hval
        split at h
        · exact absurd h (by simp)
        · rename_i di1 dl1 lti3 hrec
          obtain ⟨hdi1, hdl1, henc1, hlen1⟩ := ih hrec
          have hpicked : picked = r.shotPick c := by
            rw [npChoice] at hpick
            split at hpick
            · exact absurd hpick (by simp)
            · injection hpick with hh
              exact hh.symm
          have hv : dictFind cti c = some v := by
            rw [pyDictGet] at hval
            split at hval
            · rename_i w hw
              injection hval with hh
              exact hh ▸ hw
            · exact absurd hval (by simp)
          have hnotlt : ¬((dictGet lti c).1.length < shots) := by
            rw [npChoice] at hpick
            split at hpick
            · exact absurd hpick (by simp)
            · assumption
          injection h with h1 h2
          injection h1 with h1
          injection h1 with hdi hdl
          refine ⟨?_, ?_, ?_, ?_⟩
          · rw [← hdi, hpicked, hdi1, List.flatMap_cons]
          · rw [← hdl, hdl1, List.flatMap_cons, hv]
            rfl
          · intro x hx
            rcases List.mem_cons.mp hx with hx | hx
            · subst hx
              simp [hv]
            · exact henc1 x hx
          · intro x hx
            rcases List.mem_cons.mp hx with hx | hx
            · subst hx
              rw [← dictGet_fst]
              exact Nat.not_lt.mp hnotlt
            · rw [← lookupD_dictGet lti c x]
              exact hlen1 x hx

theorem sampleLoop_err {L : Type} [DecidableEq L] (r : Draws L) (cti : List (L × Nat))
    (shots : Nat) :
    ∀ (cs : List L) (lti : List (L × List Nat)),
      (∀ c ∈ cs, (dictFind cti c).isSome) →
      (∃ c ∈ cs, (lookupD lti c).length < shots) →
      (sampleLoop r cti shots cs lti).1 = .error .insufficientShots := by
  intro cs
  induction cs with
  | nil =>
    intro lti _ h
    simp at h
  | cons c rest ih =>
    intro lti henc hex
    by_cases h0 : (lookupD lti c).length < shots
    · rw [sampleLoop]
      have : (dictGet lti c).1.length < shots := by rwa [dictGet_fst]
      simp only [npChoice, if_pos this]
    · obtain ⟨x, hx, hxlt⟩ := hex
      have hxrest : x ∈ rest := by
        rcases List.mem_cons.mp hx with hh | hh
        · exact absurd (hh ▸ hxlt) h0
        · exact hh
      obtain ⟨v, hv⟩ := Option.isSome_iff_exists.mp (henc c (List.mem_cons_self _ _))
      have hnot : ¬((dictGet lti c).1.length < shots) := by rwa [dictGet_fst]
      have hrest : (sampleLoop r cti shots rest (dictGet lti c).2).1 =
          .error .insufficientShots := by
        refine ih _ (fun y hy => henc y (List.mem_cons_of_mem _ hy)) ⟨x, hxrest, ?_⟩
        rwa [lookupD_dictGet]
      rw [sampleLoop]
      simp only [npChoice, if_neg hnot, pyDictGet, hv]
      revert hrest
      match sampleLoop r cti shots rest (dictGet lti c).2 with
      | (.error e, lti3) => intro hh; simpa using hh
      | (.ok (di, dl), lti3) => intro hh; simp at hh

/-! ### sample-level lemmas -/

theorem setLti_self {α L : Type} (g : TaskGenerator α L) :
    setLti g g.dataset.labels_to_indices = g := rfl

theorem checkClasses_iff {L : Type} [DecidableEq L] (labels classes : List L) :
    checkClasses labels classes = true ↔ ∀ c ∈ classes, c ∈ labels := by
  simp [checkClasses]

theorem sample_ok_inv {α L : Type} [DecidableEq L] {g : TaskGenerator α L} {r : Draws L}
    {oc : Option (List L)} {shots : Nat} {ep : SampleDataset α L} {g2 : TaskGenerator α L}
    (h : g.sample r oc shots = (.ok ep, g2)) :
    ep.sampled_classes.Nodup ∧
    (∀ cs, oc = some cs → ep.sampled_classes = cs) ∧
    (oc = none → ep.sampled_classes = r.classPick) ∧
    ep.label = ep.sampled_classes.flatMap
      (fun c => List.replicate shots ((dictFind (mkClassToIdx ep.sampled_classes) c).getD 0)) ∧
    ep.data.length = (ep.sampled_classes.flatMap (fun c => r.shotPick c)).length ∧
    List.Forall₂ (fun i a => ∃ l, g.dataset.dataset.get? i = some (a, l))
      (ep.sampled_classes.flatMap (fun c => r.shotPick c)) ep.data := by
  rw [TaskGenerator.sample.eq_def] at h
  split at h
  · exact absurd h (by simp)
  · rename_i cs heq
    split at h
    · exact absurd h (by simp)
    · rename_i enc henc
      split at h
      · exact absurd h (by simp)
      · rename_i di dl lti2 hloop
        split at h
        · exact absurd h (by simp)
        · rename_i data hdata
          injection h with h1 _
          injection h1 with h1
          obtain ⟨hnd, hencdef⟩ := LabelEncoder.make_ok henc
          obtain ⟨hdi, hdl, _, _⟩ := sampleLoop_ok_inv hloop
          have hsc : ep.sampled_classes = cs := by rw [← h1]
          have hlabel : ep.label = dl := by rw [← h1]
          have hdata2 : ep.data = data := by rw [← h1]
          refine ⟨hsc ▸ hnd, ?_, ?_, ?_, ?_, ?_⟩
          · intro cs0 hoc
            subst hoc
            have heq2 : (Except.ok cs0 : Except Err (List L)) = .ok cs := heq
            injection heq2 with hh
            rw [hsc, hh]
          · intro hoc
            subst hoc
            rw [hsc]
            have heq2 : (if checkClasses g.dataset.labels g.classes then
                npChoice g.classes g.ways r.classPick
              else .error .invalidClass) = .ok cs := heq
            split at heq2
            · rw [npChoice] at heq2
              split at heq2
              · exact Except.noConfusion heq2
              · injection heq2 with hh
                exact hh.symm
            · exact Except.noConfusion heq2
          · rw [hlabel, hdl, hsc, hencdef]
          · rw [hdata2, getData_ok_length hdata, hdi, hsc]
          · rw [hdata2, hsc, ← hdi]
            exact getData_ok_forall2 hdata

theorem sample_override_ok {α L : Type} [DecidableEq L] (ds : List (α × L))
    (g : TaskGenerator α L) (r : Draws L) (cs : List L) (shots : Nat)
    (hg : g.dataset = MetaDataset.make ds)
    (hnd : cs.Nodup)
    (hkeys : ∀ c ∈ cs, (dictFind g.dataset.labels_to_indices c).isSome)
    (hpick : ∀ c ∈ cs, (r.shotPick c).length = shots ∧ (r.shotPick c).Nodup ∧
      ∀ i ∈ r.shotPick c, i ∈ lookupD g.dataset.labels_to_indices c) :
    ∃ data : List α, g.sample r (some cs) shots =
      (.ok { data := data,
             label := (List.range cs.length).flatMap (fun i => List.replicate shots i),
             sampled_classes := cs }, g) ∧
      List.Forall₂ (fun i a => ∃ l, ds.get? i = some (a, l))
        (cs.flatMap (fun c => r.shotPick c)) data ∧
      data.length = cs.length * shots := by
  have hlti : g.dataset.labels_to_indices = get_dict_of_labels_to_indices ds := by
    rw [hg]; rfl
  have hds : g.dataset.dataset = ds := by rw [hg]; rfl
  have hlen : ∀ c ∈ cs, shots ≤ (lookupD g.dataset.labels_to_indices c).length := by
    intro c hc
    obtain ⟨hl, hnd2, hsub⟩ := hpick c hc
    have := nodup_subset_length_le hnd2 hsub
    omega
  obtain ⟨lti2, hloop⟩ := sampleLoop_ok r (mkClassToIdx cs) shots cs
    g.dataset.labels_to_indices hlen (fun c hc => dictFind_mkClassToIdx_isSome hc)
  have hlti2 : lti2 = g.dataset.labels_to_indices := by
    have := sampleLoop_snd r (mkClassToIdx cs) shots cs g.dataset.labels_to_indices hkeys
    rw [hloop] at this
    exact this
  have hdilt : ∀ i ∈ cs.flatMap (fun c => r.shotPick c), i < ds.length := by
    intro i hi
    obtain ⟨c, hc, hic⟩ := List.mem_flatMap.mp hi
    have := (hpick c hc).2.2 i hic
    rw [hlti] at this
    exact lookupD_get_dict_lt this
  obtain ⟨data, hdata⟩ := @getData_ok_of_lt α L ds (cs.flatMap fun c => r.shotPick c) hdilt
  refine ⟨data, ?_, getData_ok_forall2 hdata, ?_⟩
  · rw [TaskGenerator.sample.eq_def]
    simp only [LabelEncoder.make_of_nodup hnd, hloop, hds, hdata,
      flatMap_replicate_mkClassToIdx shots hnd, hlti2, setLti_self]
  · rw [getData_ok_length hdata]
    exact flatMap_length_const fun c hc => (hpick c hc).1

theorem sample_snd_setLti {α L : Type} [DecidableEq L] (g : TaskGenerator α L) (r : Draws L)
    (oc : Option (List L)) (shots : Nat) :
    ∃ l, (g.sample r oc shots).2 = setLti g l := by
  rw [TaskGenerator.sample.eq_def]
  split
  · exact ⟨g.dataset.labels_to_indices, (setLti_self g).symm⟩
  · split
    · exact ⟨g.dataset.labels_to_indices, (setLti_self g).symm⟩
    · split
      · rename_i e lti2 _
        exact ⟨lti2, rfl⟩
      · rename_i di dl lti2 _
        split
        · exact ⟨lti2, rfl⟩
        · exact ⟨lti2, rfl⟩

theorem sample_override_snd {α L : Type} [DecidableEq L] (g : TaskGenerator α L) (r : Draws L)
    (cs : List L) (shots : Nat)
    (hkeys : ∀ c ∈ cs, (dictFind g.dataset.labels_to_indices c).isSome) :
    (g.sample r (some cs) shots).2 = g := by
  by_cases hnd : cs.Nodup
  · rw [TaskGenerator.sample.eq_def]
    simp only [LabelEncoder.make_of_nodup hnd]
    have hsnd := sampleLoop_snd r (mkClassToIdx cs) shots cs g.dataset.labels_to_indices hkeys
    split
    · rename_i e lti2 heq2
      rw [heq2] at hsnd
      show setLti g lti2 = g
      rw [show lti2 = g.dataset.labels_to_indices from hsnd]
      exact setLti_self g
    · rename_i di dl lti2 heq2
      rw [heq2] at hsnd
      split
      · show setLti g lti2 = g
        rw [show lti2 = g.dataset.labels_to_indices from hsnd]
        exact setLti_self g
      · show setLti g lti2 = g
        rw [show lti2 = g.dataset.labels_to_indices from hsnd]
        exact setLti_self g
  · rw [TaskGenerator.sample.eq_def]
    simp only [LabelEncoder.make_err hnd]

theorem sample_none_snd {α L : Type} [DecidableEq L] (g : TaskGenerator α L) (r : Draws L)
    (shots : Nat)
    (hkeys : ∀ c ∈ r.classPick, (dictFind g.dataset.labels_to_indices c).isSome) :
    (g.sample r none shots).2 = g := by
  rw [TaskGenerator.sample.eq_def]
  by_cases hchk : checkClasses g.dataset.labels g.classes
  · rw [npChoice]
    by_cases hlt : g.classes.length < g.ways
    · simp [hchk, hlt]
    · simp only [hchk, if_true, if_neg hlt]
      by_cases hnd : r.classPick.Nodup
      · simp only [LabelEncoder.make_of_nodup hnd]
        have hsnd := sampleLoop_snd r (mkClassToIdx r.classPick) shots r.classPick
          g.dataset.labels_to_indices hkeys
        split
        · rename_i e lti2 heq2
          rw [heq2] at hsnd
          show setLti g lti2 = g
          rw [show lti2 = g.dataset.labels_to_indices from hsnd]
          exact setLti_self g
        · rename_i di dl lti2 heq2
          rw [heq2] at hsnd
          split
          · show setLti g lti2 = g
            rw [show lti2 = g.dataset.labels_to_indices from hsnd]
            exact setLti_self g
          · show setLti g lti2 = g
            rw [show lti2 = g.dataset.labels_to_indices from hsnd]
            exact setLti_self g
      · simp only [LabelEncoder.make_err hnd]
  · simp [hchk]

theorem sample_override_err {α L : Type} [DecidableEq L] (g : TaskGenerator α L) (r : Draws L)
    (cs : List L) (shots : Nat) (hnd : cs.Nodup)
    (hex : ∃ c ∈ cs, (lookupD g.dataset.labels_to_indices c).length < shots) :
    (g.sample r (some cs) shots).1 = .error .insufficientShots := by
  rw [TaskGenerator.sample.eq_def]
  simp only [LabelEncoder.make_of_nodup hnd]
  have herr := sampleLoop_err r (mkClassToIdx cs) shots cs g.dataset.labels_to_indices
    (fun c hc => dictFind_mkClassToIdx_isSome hc) hex
  rcases hloop : sampleLoop r (mkClassToIdx cs) shots cs g.dataset.labels_to_indices
    with ⟨res, lti2⟩
  rw [hloop] at herr
  have hres : res = .error .insufficientShots := herr
  subst hres
  rfl

theorem sample_none_err {α L : Type} [DecidableEq L] (g : TaskGenerator α L) (r : Draws L)
    (shots : Nat) (hchk : checkClasses g.dataset.labels g.classes = true)
    (hle : g.ways ≤ g.classes.length) (hnd : r.classPick.Nodup)
    (hex : ∃ c ∈ r.classPick, (lookupD g.dataset.labels_to_indices c).length < shots) :
    (g.sample r none shots).1 = .error .insufficientShots := by
  rw [TaskGenerator.sample.eq_def]
  simp only [hchk, if_true, npChoice, if_neg (Nat.not_lt.mpr hle),
    LabelEncoder.make_of_nodup hnd]
  have herr := sampleLoop_err r (mkClassToIdx r.classPick) shots r.classPick
    g.dataset.labels_to_indices (fun c hc => dictFind_mkClassToIdx_isSome hc) hex
  rcases hloop : sampleLoop r (mkClassToIdx r.classPick) shots r.classPick
    g.dataset.labels_to_indices with ⟨res, lti2⟩
  rw [hloop] at herr
  have hres : res = .error .insufficientShots := herr
  subst hres
  rfl

theorem sample_none_invalid {α L : Type} [DecidableEq L] (g : TaskGenerator α L) (r : Draws L)
    (shots : Nat) (hchk : ¬(∀ c ∈ g.classes, c ∈ g.dataset.labels)) :
    g.sample r none shots = (.error .invalidClass, g) := by
  have hb : ¬(checkClasses g.dataset.labels g.classes = true) :=
    fun hh => hchk ((checkClasses_iff _ _).mp hh)
  rw [TaskGenerator.sample.eq_def]
  simp [hb]

theorem sample_dup_override {α L : Type} [DecidableEq L] (g : TaskGenerator α L) (r : Draws L)
    (cs : List L) (shots : Nat) (hnd : ¬cs.Nodup) :
    g.sample r (some cs) shots = (.error .duplicateLabel, g) := by
  rw [TaskGenerator.sample.eq_def]
  simp [LabelEncoder.make_err hnd]

/-! ### Concrete instances (witness data)

`dsA` is the spec's running example: ten items with labels
`[0,0,0,1,1,1,2,2,2,2]`; its index is
`[(0,[0,1,2]), (1,[3,4,5]), (2,[6,7,8,9])]`.  `dsB` is a one-item
dataset with the single label `0`. -/

def dsA : List (Nat × Nat) :=
  [(10, 0), (11, 0), (12, 0), (13, 1), (14, 1), (15, 1), (16, 2), (17, 2), (18, 2), (19, 2)]

def mdA : MetaDataset Nat Nat := MetaDataset.make dsA

def tgA : TaskGenerator Nat Nat := { dataset := mdA, ways := 2, classes := [0, 1, 2] }

/-- Oracle drawing positions `3c, 3c+1, 3c+2` for class `c` (three
shots, all legal for `dsA`). -/
def rShots3 : Draws Nat := { classPick := [0, 1], shotPick := fun c => [3 * c, 3 * c + 1, 3 * c + 2] }

/-- Oracle drawing the single position `3c` for class `c`. -/
def rShots1 : Draws Nat := { classPick := [0, 1], shotPick := fun c => [3 * c] }

def dsB : List (Nat × Nat) := [(7, 0)]

def mdB : MetaDataset Nat Nat := MetaDataset.make dsB

def gB : TaskGenerator Nat Nat := { dataset := mdB, ways := 1, classes := [0] }

def rB : Draws Nat := { classPick := [0], shotPick := fun _ => [0] }

/-- A generator whose configured class `1` is not a dataset label
(standing for external mutation of `classes` after construction, which
the spec says `sample` must tolerate by re-checking). -/
def tgBad : TaskGenerator Nat Nat := { dataset := mdB, ways := 1, classes := [1] }

/-- The episode produced by `tgA.sample rShots3 (some [0, 2]) 3`. -/
def epA : SampleDataset Nat Nat :=
  { data := [10, 11, 12, 16, 17, 18], label := [0, 0, 0, 1, 1, 1], sampled_classes := [0, 2] }

/-- The encoder built from `[4, 6, 7]`. -/
def encA : LabelEncoder Nat :=
  { class_to_idx := [(4, 0), (6, 1), (7, 2)], idx_to_class := [(0, 4), (1, 6), (2, 7)] }

/-! ### Claims -/

/-- C7: after construction of the `MetaDataset`, the concatenation of
all value-lists of `labels_to_indices` is a permutation of
`0 .. length-1` (so their union is exactly the position set and no
position appears in more than one list), and every position is filed
under the label the wrapped dataset carries at that position. -/
theorem c7_partition {α L : Type} [DecidableEq L] (ds : List (α × L)) :
    ((MetaDataset.make ds).labels_to_indices.flatMap Prod.snd).Perm (List.range ds.length) ∧
    ((MetaDataset.make ds).labels_to_indices.flatMap Prod.snd).Nodup ∧
    (∀ p ∈ (MetaDataset.make ds).labels_to_indices, ∀ i ∈ p.2,
      ∃ a, ds.get? i = some (a, p.1)) := by
  have hperm : ((MetaDataset.make ds).labels_to_indices.flatMap Prod.snd).Perm
      (List.range ds.length) := get_dict_perm ds
  refine ⟨hperm, hperm.symm.nodup (List.nodup_range _), ?_⟩
  intro p hp i hi
  exact @indexLoop_pred α L _ (fun j k => ∃ a, ds.get? j = some (a, k)) ds 0 []
    (by simp) (fun m x hx => ⟨x.1, by simpa using hx⟩) p hp i hi

/-- C7 witness at the one-item dataset `dsB`. -/
theorem c7_partition_witness :
    ((MetaDataset.make dsB).labels_to_indices.flatMap Prod.snd).Perm (List.range dsB.length) ∧
    (∃ a, dsB.get? 0 = some (a, 0)) :=
  ⟨(c7_partition dsB).1, (c7_partition dsB).2.2 (0, [0]) (by decide) 0 (by decide)⟩

/-- C8: a duplicate in the class list makes `LabelEncoder`
construction fail with `duplicateLabel`, and the enclosing `sample`
call fails with that error, leaving the generator unchanged. -/
theorem c8_duplicate_label {α L : Type} [DecidableEq L] :
    (∀ cs : List L, ¬cs.Nodup → LabelEncoder.make cs = .error .duplicateLabel) ∧
    (∀ (g : TaskGenerator α L) (r : Draws L) (cs : List L) (shots : Nat), ¬cs.Nodup →
      g.sample r (some cs) shots = (.error .duplicateLabel, g)) :=
  ⟨fun _ h => LabelEncoder.make_err h, fun g r cs shots h => sample_dup_override g r cs shots h⟩

/-- C8 witness at the duplicated list `[0, 0]`. -/
theorem c8_duplicate_label_witness :
    LabelEncoder.make [0, 0] = (.error .duplicateLabel : Except Err (LabelEncoder Nat)) ∧
    gB.sample rB (some [0, 0]) 1 = (.error .duplicateLabel, gB) :=
  ⟨(@c8_duplicate_label Nat Nat _).1 [0, 0] (by decide),
   (@c8_duplicate_label Nat Nat _).2 gB rB [0, 0] 1 (by decide)⟩

/-- C9: for an encoder built from a duplicate-free list, `toIndex`
after `toLabel` is the identity on every valid dense index (stated via
`get?`: position `i` holds class `c`). -/
theorem c9_roundtrip {L : Type} [DecidableEq L] {cs : List L} {e : LabelEncoder L} {i : Nat}
    {c : L} (h : LabelEncoder.make cs = .ok e) (hi : cs.get? i = some c) :
    e.toLabel i = .ok c ∧ e.toIndex c = .ok i := by
  obtain ⟨hnd, hdef⟩ := LabelEncoder.make_ok h
  subst hdef
  constructor
  · rw [LabelEncoder.toLabel, pyDictGet, dictFind_mkIdxToClass hi]
  · rw [LabelEncoder.toIndex, pyDictGet, dictFind_mkClassToIdx hnd hi]

/-- C9 witness at `[4, 6, 7]`, index 1. -/
theorem c9_roundtrip_witness : encA.toLabel 1 = .ok 6 ∧ encA.toIndex 6 = .ok 1 :=
  c9_roundtrip (show LabelEncoder.make [4, 6, 7] = .ok encA from rfl) rfl

/-- C10: an explicit empty override class list raises no error:
`sample` returns the empty episode (empty data, labels and
sampled-class list, length 0) and leaves the generator unchanged. -/
theorem c10_empty_override {α L : Type} [DecidableEq L] (g : TaskGenerator α L) (r : Draws L)
    (shots : Nat) :
    g.sample r (some []) shots =
      (.ok { data := [], label := [], sampled_classes := [] }, g) ∧
    ({ data := [], label := [], sampled_classes := [] } : SampleDataset α L).len = 0 :=
  ⟨rfl, rfl⟩

/-- C1 counterexample: `tgA` is a legitimately constructed sampler
with `ways = 2`, yet a successful call with the size-1 override `[0]`
and `shots = 1` returns an episode of length 1, not
`ways * shots = 2`. -/
theorem c1_counterexample :
    TaskGenerator.make mdA (some [0, 1, 2]) 2 = .ok tgA ∧
    tgA.sample rShots1 (some [0]) 1 =
      (.ok { data := [10], label := [0], sampled_classes := [0] }, tgA) ∧
    ({ data := [10], label := [0], sampled_classes := [0] } : SampleDataset Nat Nat).len ≠
      tgA.ways * 1 :=
  ⟨rfl, rfl, by decide⟩

/-- C1 (amended): a successful `sample` call returns an episode of
length `m * shots` where `m` is the number of classes actually used:
the override list itself when one is passed, the drawn class vector
(of size `ways` for a valid draw) otherwise.  The length equals
`ways * shots` only when no override is passed or the override has
exactly `ways` entries. -/
theorem c1_episode_length {α L : Type} [DecidableEq L] {g : TaskGenerator α L} {r : Draws L}
    {oc : Option (List L)} {shots : Nat} {ep : SampleDataset α L} {g2 : TaskGenerator α L}
    (h : g.sample r oc shots = (.ok ep, g2))
    (hpick : ∀ c ∈ ep.sampled_classes, (r.shotPick c).length = shots) :
    ep.len = ep.sampled_classes.length * shots ∧
    (∀ cs, oc = some cs → ep.sampled_classes = cs) ∧
    (oc = none → ep.sampled_classes = r.classPick) := by
  obtain ⟨_, hover, hnone, _, hlen, _⟩ := sample_ok_inv h
  refine ⟨?_, hover, hnone⟩
  rw [SampleDataset.len, hlen]
  exact flatMap_length_const hpick

/-- C1 witness: the 2-class, 3-shot episode `epA` has length
`2 * 3`. -/
theorem c1_episode_length_witness : epA.len = epA.sampled_classes.length * 3 := by
  have h : tgA.sample rShots3 (some [0, 2]) 3 = (.ok epA, tgA) := rfl
  exact (c1_episode_length h (by decide)).1

/-- C2 counterexample: a successful call on the `ways = 2` sampler
`tgA` with the single-class override `[0]` yields remapped labels
`[0]`, not each of `0 .. ways-1` repeated `shots` times
(`[0, 1]` here). -/
theorem c2_counterexample :
    TaskGenerator.make mdA (some [0, 1, 2]) 2 = .ok tgA ∧
    tgA.sample rShots1 (some [0]) 1 =
      (.ok { data := [10], label := [0], sampled_classes := [0] }, tgA) ∧
    ({ data := [10], label := [0], sampled_classes := [0] } : SampleDataset Nat Nat).label ≠
      (List.range tgA.ways).flatMap (fun i => List.replicate 1 i) :=
  ⟨rfl, rfl, by decide⟩

/-- C2 (amended): on every successful `sample` call the remapped
labels are exactly the dense indices `0 .. m-1`, where `m` is the
number of classes actually used (`ways` on the configured path), each
repeated `shots` times contiguously, in class order. -/
theorem c2_labels {α L : Type} [DecidableEq L] {g : TaskGenerator α L} {r : Draws L}
    {oc : Option (List L)} {shots : Nat} {ep : SampleDataset α L} {g2 : TaskGenerator α L}
    (h : g.sample r oc shots = (.ok ep, g2)) :
    ep.label =
      (List.range ep.sampled_classes.length).flatMap (fun i => List.replicate shots i) := by
  obtain ⟨hnd, _, _, hlab, _, _⟩ := sample_ok_inv h
  rw [hlab]
  exact flatMap_replicate_mkClassToIdx shots hnd

/-- C2 witness at the concrete 2-class, 3-shot call. -/
theorem c2_labels_witness :
    epA.label = (List.range epA.sampled_classes.length).flatMap (fun i => List.replicate 3 i) := by
  have h : tgA.sample rShots3 (some [0, 2]) 3 = (.ok epA, tgA) := rfl
  exact c2_labels h

/-- C3 counterexample: `sample` with the override `[5]` on a dataset
whose only label is `0` does not fail with `invalidClass`: it proceeds
into the per-class loop (mutating `labels_to_indices`, which gains the
empty entry `(5, [])`) and fails with `insufficientShots` from
`np.random.choice` on the empty list. -/
theorem c3_counterexample :
    (gB.sample rB (some [5]) 1).1 = .error .insufficientShots ∧
    Err.insufficientShots ≠ Err.invalidClass ∧
    (gB.sample rB (some [5]) 1).2.dataset.labels_to_indices = [(0, [0]), (5, [])] :=
  ⟨rfl, by decide, rfl⟩

/-- C3 (amended): `invalidClass` is raised at construction and at the
start of a configured-path `sample()` call when a configured class is
not a dataset label; an override list is not validated at all — an
override whose (first) class is unknown proceeds into sampling and
fails with `insufficientShots` whenever `shots ≥ 1`, because the
unknown class has an empty index list. -/
theorem c3_invalid_class {α L : Type} [DecidableEq L] :
    (∀ (d : MetaDataset α L) (cls : List L) (ways : Nat), ways ≤ cls.length →
      ¬(∀ c ∈ cls, c ∈ d.labels) →
      TaskGenerator.make d (some cls) ways = .error .invalidClass) ∧
    (∀ (g : TaskGenerator α L) (r : Draws L) (shots : Nat),
      ¬(∀ c ∈ g.classes, c ∈ g.dataset.labels) →
      g.sample r none shots = (.error .invalidClass, g)) ∧
    (∀ (g : TaskGenerator α L) (r : Draws L) (c : L) (cs : List L) (shots : Nat),
      dictFind g.dataset.labels_to_indices c = none → (c :: cs).Nodup → 0 < shots →
      (g.sample r (some (c :: cs)) shots).1 = .error .insufficientShots) := by
  refine ⟨?_, fun g r shots h => sample_none_invalid g r shots h, ?_⟩
  · intro d cls ways hle hbad
    have hb : ¬(checkClasses d.labels cls = true) :=
      fun hh => hbad ((checkClasses_iff _ _).mp hh)
    rw [TaskGenerator.make]
    simp [hle, hb]
  · intro g r c cs shots hnone hnd hpos
    refine sample_override_err g r (c :: cs) shots hnd ⟨c, List.mem_cons_self _ _, ?_⟩
    rw [lookupD, hnone]
    simpa using hpos

/-- C3 witness: construction rejects an unknown configured class; a
configured-path call re-checks and rejects; an unknown override class
instead surfaces as `insufficientShots`. -/
theorem c3_invalid_class_witness :
    TaskGenerator.make mdB (some [1]) 1 = .error .invalidClass ∧
    tgBad.sample rB none 1 = (.error .invalidClass, tgBad) ∧
    (gB.sample rB (some [5]) 1).1 = .error .insufficientShots :=
  ⟨(@c3_invalid_class Nat Nat _).1 mdB [1] 1 (by decide) (by decide),
   (@c3_invalid_class Nat Nat _).2.1 tgBad rB 1 (by decide),
   (@c3_invalid_class Nat Nat _).2.2 gB rB 5 [] 1 rfl (by decide) (by decide)⟩

/-- C4 counterexample: the failed call `gB.sample rB (some [5]) 1`
mutates the wrapped dataset's `labels_to_indices`: the `defaultdict`
access inserts the empty entry `(5, [])`. -/
theorem c4_counterexample :
    (gB.sample rB (some [5]) 1).2.dataset.labels_to_indices = [(0, [0]), (5, [])] ∧
    gB.dataset.labels_to_indices = [(0, [0])] ∧
    (gB.sample rB (some [5]) 1).2.dataset.labels_to_indices ≠ gB.dataset.labels_to_indices :=
  ⟨rfl, rfl, by decide⟩

/-- C4 (amended): `sample` never changes `ways`, `classes`, `labels`
or the wrapped item list; and it leaves `labels_to_indices` unchanged
whenever every class it iterates over (the override list, or the drawn
classes on the configured path) is already a key of
`labels_to_indices`.  Only an override (or drawn class) missing from
the dictionary triggers the `defaultdict` insertion of an empty
entry. -/
theorem c4_no_mutation {α L : Type} [DecidableEq L] :
    (∀ (g : TaskGenerator α L) (r : Draws L) (oc : Option (List L)) (shots : Nat),
      (g.sample r oc shots).2.ways = g.ways ∧
      (g.sample r oc shots).2.classes = g.classes ∧
      (g.sample r oc shots).2.dataset.labels = g.dataset.labels ∧
      (g.sample r oc shots).2.dataset.dataset = g.dataset.dataset) ∧
    (∀ (g : TaskGenerator α L) (r : Draws L) (cs : List L) (shots : Nat),
      (∀ c ∈ cs, (dictFind g.dataset.labels_to_indices c).isSome) →
      (g.sample r (some cs) shots).2 = g) ∧
    (∀ (g : TaskGenerator α L) (r : Draws L) (shots : Nat),
      (∀ c ∈ r.classPick, (dictFind g.dataset.labels_to_indices c).isSome) →
      (g.sample r none shots).2 = g) := by
  refine ⟨?_, sample_override_snd, sample_none_snd⟩
  intro g r oc shots
  obtain ⟨l, hl⟩ := sample_snd_setLti g r oc shots
  rw [hl]
  exact ⟨rfl, rfl, rfl, rfl⟩

/-- C4 witness: a call whose override classes are all present leaves
the generator fully unchanged. -/
theorem c4_no_mutation_witness : (tgA.sample rShots3 (some [0, 2]) 3).2 = tgA :=
  (@c4_no_mutation Nat Nat _).2.1 tgA rShots3 [0, 2] 3 (by decide)

/-- C5: with a duplicate-free override list of known classes and valid
per-class draws (numpy's contract: `shots` distinct positions from the
class's index list), `sample` succeeds, the episode's items are the
dataset entries at the per-class drawn positions in class order (so
each class contributes exactly `shots` items from its own index
list), the remapped labels are `0 .. m-1` each `shots` times, and the
length is `m * shots` — e.g. `sample(classes=[0,2], shots=3)` gives 6
items, 3 from label-0 positions and 3 from label-2 positions, labels
`[0,0,0,1,1,1]` (see the witness). -/
theorem c5_items_from_class_lists {α L : Type} [DecidableEq L] (ds : List (α × L))
    (g : TaskGenerator α L) (r : Draws L) (cs : List L) (shots : Nat)
    (hg : g.dataset = MetaDataset.make ds) (hnd : cs.Nodup)
    (hkeys : ∀ c ∈ cs, (dictFind g.dataset.labels_to_indices c).isSome)
    (hpick : ∀ c ∈ cs, (r.shotPick c).length = shots ∧ (r.shotPick c).Nodup ∧
      ∀ i ∈ r.shotPick c, i ∈ lookupD g.dataset.labels_to_indices c) :
    ∃ data : List α,
      g.sample r (some cs) shots =
        (.ok { data := data,
               label := (List.range cs.length).flatMap (fun i => List.replicate shots i),
               sampled_classes := cs }, g) ∧
      List.Forall₂ (fun i a => ∃ l, ds.get? i = some (a, l))
        (cs.flatMap (fun c => r.shotPick c)) data ∧
      data.length = cs.length * shots :=
  sample_override_ok ds g r cs shots hg hnd hkeys hpick

/-- C5 witness: the spec's example call `sample(classes=[0,2],
shots=3)` on `dsA`. -/
theorem c5_items_from_class_lists_witness :
    ∃ data : List Nat,
      tgA.sample rShots3 (some [0, 2]) 3 =
        (.ok { data := data,
               label := (List.range ([0, 2] : List Nat).length).flatMap
                 (fun i => List.replicate 3 i),
               sampled_classes := [0, 2] }, tgA) ∧
      List.Forall₂ (fun i a => ∃ l, dsA.get? i = some (a, l))
        (([0, 2] : List Nat).flatMap (fun c => rShots3.shotPick c)) data ∧
      data.length = ([0, 2] : List Nat).length * 3 :=
  c5_items_from_class_lists dsA tgA rShots3 [0, 2] 3 rfl (by decide) (by decide) (by decide)

/-- C6: when a selected class (override or drawn) has fewer available
positions than `shots`, the `sample` call fails with
`insufficientShots` and returns no episode. -/
theorem c6_insufficient_shots {α L : Type} [DecidableEq L] :
    (∀ (g : TaskGenerator α L) (r : Draws L) (cs : List L) (shots : Nat), cs.Nodup →
      (∃ c ∈ cs, (lookupD g.dataset.labels_to_indices c).length < shots) →
      (g.sample r (some cs) shots).1 = .error .insufficientShots) ∧
    (∀ (g : TaskGenerator α L) (r : Draws L) (shots : Nat),
      (∀ c ∈ g.classes, c ∈ g.dataset.labels) → g.ways ≤ g.classes.length →
      r.classPick.Nodup →
      (∃ c ∈ r.classPick, (lookupD g.dataset.labels_to_indices c).length < shots) →
      (g.sample r none shots).1 = .error .insufficientShots) := by
  refine ⟨sample_override_err, ?_⟩
  intro g r shots hchk hle hnd hex
  exact sample_none_err g r shots ((checkClasses_iff _ _).mpr hchk) hle hnd hex

/-- C6 witness: asking 5 shots from a 1-item class fails on both the
override and the configured path. -/
theorem c6_insufficient_shots_witness :
    (gB.sample rB (some [0]) 5).1 = .error .insufficientShots ∧
    (gB.sample rB none 5).1 = .error .insufficientShots :=
  ⟨(@c6_insufficient_shots Nat Nat _).1 gB rB [0] 5 (by decide) ⟨0, by decide, by decide⟩,
   (@c6_insufficient_shots Nat Nat _).2 gB rB 5 (by decide) (by decide) (by decide)
     ⟨0, by decide, by decide⟩⟩
